import Mathlib

/-!
# Verification of the gitoxide configuration-lookup core and pathspec parser

Part 1 models the git-config document store, lookup engine and value-coercion
layer. The implementation of these lives outside the sources provided here
(only its test suite `git-config/tests/file/access/read_only.rs` is present),
so the definitions are modelled from the specification, with the in-repository
tests as the authority on observable behaviour where they speak.

Part 2 embeds `git-pathspec/src/parse.rs` (`Pattern::from_bytes` and its
helpers), which is provided in full.
-/

namespace GitConfig

/-- Modelled from the spec: lookup results are "an explicit tagged union
(borrowed slice tied to the Document's buffer vs. owned decoded copy)",
mirroring Rust's `Cow<'_, BStr>`. The payload is the value's content. -/
inductive Cow where
  | borrowed (s : List Char)
  | owned (s : List Char)
  deriving DecidableEq, Repr

/-- The content carried by either representation. -/
def Cow.content : Cow → List Char
  | .borrowed s => s
  | .owned s => s

/-- Whether the value borrows from the document's buffer (zero copy). -/
def Cow.isBorrowed : Cow → Bool
  | .borrowed _ => true
  | .owned _ => false

/-- Modelled from the spec: per-type decode errors ("DecodeError (per type) —
raw value violates the target grammar (bad integer suffix, unknown color name,
malformed boolean token, bad escape): local to one query"). -/
inductive DecodeError where
  | badEscape
  | badBoolean
  | badInteger
  | badColor
  | missingValue
  deriving DecidableEq, Repr

/-- Modelled from the spec: an Entry is a "key (case-insensitive identity),
raw value (optional — absence means implicitly true)". The raw value is the
physical text after `=`, quotes and escapes unresolved. -/
structure Entry where
  key : String
  value : Option String
  deriving DecidableEq, Repr

/-- Modelled from the spec: a Section has a "name (case-insensitive identity
...), optional subsection label (case-sensitive, exact string), ordered
sequence of Entry". -/
structure Section where
  name : String
  subsection : Option String
  entries : List Entry
  deriving DecidableEq, Repr

/-- Modelled from the spec: a Document is an "ordered sequence of Section;
order reflects textual declaration order; sections with identical
name+subsection may repeat and are NOT merged at parse time". -/
abbrev Document := List Section

/-- ASCII case fold of one character ("compare names via an ASCII case-fold
equality function rather than lowercasing stored data"). -/
def asciiLower (c : Char) : Char :=
  if 'A' ≤ c ∧ c ≤ 'Z' then Char.ofNat (c.toNat + 32) else c

/-- ASCII case fold of a name. -/
def foldName (s : String) : List Char :=
  s.data.map asciiLower

/-- Modelled from the spec: "Section names and key names: case-insensitive
ASCII-fold equality." -/
def foldEq (a b : String) : Bool :=
  foldName a == foldName b

/-- Modelled from the spec: a Section matches a query by "case-insensitive
name and case-sensitive subsection" (subsection labels use exact byte
equality). -/
def sectionMatches (sec : Section) (name : String) (sub : Option String) : Bool :=
  foldEq sec.name name && sec.subsection == sub

/-- An Entry matches a queried key case-insensitively. -/
def entryMatches (e : Entry) (key : String) : Bool :=
  foldEq e.key key

/-- The raw value of the last Entry of this Section matching `key`, if any
(`some none` is an implicit-true entry; `none` means the Section lacks the
key). -/
def Section.findKey (sec : Section) (key : String) : Option (Option String) :=
  (sec.entries.reverse.find? (fun e => entryMatches e key)).map Entry.value

/-- Modelled from the spec (single-value contract): "treat all Sections
matching (section, subsection) ... as one logical, ordered group,
most-recently-declared first. Scan that group's matching Section in reverse:
if it has an Entry matching key (case-insensitive), return its value. If the
most recent matching Section lacks the key, fall through to the
next-most-recent matching Section rather than failing." `none` is the
NotFound absence signal. -/
def lookupRaw (doc : Document) (name : String) (sub : Option String)
    (key : String) : Option (Option String) :=
  ((doc.filter (fun s => sectionMatches s name sub)).reverse).findSome?
    (fun s => s.findKey key)

/-- Modelled from the spec (multi-value contract): "ordered sequence of every
matching value across all matching Sections, in declaration order (earliest
first), including duplicates caused by keys differing only in case". -/
def multiValueRaw (doc : Document) (name : String) (sub : Option String)
    (key : String) : List (Option String) :=
  (doc.filter (fun s => sectionMatches s name sub)).flatMap
    (fun s => (s.entries.filter (fun e => entryMatches e key)).map Entry.value)

/-- Modelled from the spec: "a trailing backslash allows the value to continue
on the next physical line, and continuation must be joined before tokenizing"
— a backslash-newline pair is deleted, joining the physical lines into one
logical value. -/
def joinCont : List Char → List Char
  | [] => []
  | '\\' :: '\n' :: rest => joinCont rest
  | c :: rest => c :: joinCont rest

/-- Resolution of one escape sequence of the string grammar. -/
def unescapeChar (c : Char) : Option Char :=
  match c with
  | 'n' => some '\n'
  | 't' => some '\t'
  | 'b' => some (Char.ofNat 8)
  | '\\' => some '\\'
  | '"' => some '"'
  | _ => none

/-- Modelled from the spec (String coercion): "surrounding quotes are
stripped, escape sequences resolved, and adjacent quoted/unquoted runs within
one logical value are concatenated; failure occurs only on malformed escape
sequences". This is the canonical transformation from raw text to logical
content: quote characters delimit runs and are dropped, a backslash resolves
the following character, `none` signals a malformed escape. -/
def unescape : List Char → Option (List Char)
  | [] => some []
  | c :: rest =>
    if c = '\\' then
      match rest with
      | [] => none
      | c2 :: rest2 =>
        match unescapeChar c2 with
        | some c3 => (unescape rest2).map (fun r => c3 :: r)
        | none => none
    else if c = '"' then
      unescape rest
    else
      (unescape rest).map (fun r => c :: r)

/-- `true` when the raw text contains no quote and no backslash, so that its
logical content is the text itself. -/
def isPlain (s : List Char) : Bool :=
  !s.contains '"' && !s.contains '\\'

/-- Modelled from the spec and the repository's tests: extraction of a
value's logical content as a `Cow`. A raw text needing no transformation is
returned borrowed; per the tests (`read_only.rs`, the `other-quoted`
assertions on `Cow::Borrowed`), a value wholly surrounded by quotes whose
interior needs no further work is also returned borrowed, because stripping
the surrounding quotes leaves a contiguous subslice of the buffer; anything
else (escape resolution, interior quote runs) is materialized as an owned
copy of the transformed content. -/
def normalizeValue (s : List Char) : Except DecodeError Cow :=
  if isPlain s then .ok (.borrowed s)
  else
    match s with
    | '"' :: rest =>
      if rest.getLast? = some '"' ∧ isPlain rest.dropLast then
        .ok (.borrowed rest.dropLast)
      else
        match unescape s with
        | some r => .ok (.owned r)
        | none => .error .badEscape
    | _ =>
      match unescape s with
      | some r => .ok (.owned r)
      | none => .error .badEscape

/-- Modelled from the spec: a decoded boolean true is either the explicit
textual form (carrying the text) or the implicit marker for "a key present
with no value at all", and the two are distinguishable by inspection. -/
inductive TrueVariant where
  | explicit (text : Cow)
  | implicit
  deriving DecidableEq, Repr

/-- Modelled from the spec: the Boolean coercion result, `True` with its
variant or `False` carrying the matched text. -/
inductive Boolean where
  | isTrue (v : TrueVariant)
  | isFalse (text : Cow)
  deriving DecidableEq, Repr

/-- Collapse a decoded Boolean to `Bool`, as the `boolean(...)` convenience
lookup does. -/
def Boolean.toBool : Boolean → Bool
  | .isTrue _ => true
  | .isFalse _ => false

/-- Modelled from the spec (Boolean coercion): "explicit textual forms
(`true`/`false` and recognized synonyms) decode to True::Explicit/False; a key
present with no value at all decodes to True::Implicit; any other token is a
decode error". Synonyms follow the conventional vocabulary (`yes`/`on`,
`no`/`off`, the empty string as false), matched case-insensitively. -/
def decodeBoolean (v : Option (List Char)) : Except DecodeError Boolean :=
  match v with
  | none => .ok (.isTrue .implicit)
  | some s => do
    let c ← normalizeValue (joinCont s)
    let l := c.content.map asciiLower
    if l = "true".data ∨ l = "yes".data ∨ l = "on".data then
      .ok (.isTrue (.explicit c))
    else if l = "false".data ∨ l = "no".data ∨ l = "off".data ∨ l = [] then
      .ok (.isFalse c)
    else
      .error .badBoolean

/-- Modelled from the spec: the power-of-1024 size suffix letters
(`k`/`m`/`g`). -/
inductive Suffix where
  | kibi
  | mebi
  | gibi
  deriving DecidableEq, Repr

/-- Modelled from the spec: the Integer coercion result — "the suffix is
retained unmultiplied alongside the numeric value; absence of a suffix yields
an empty-suffix marker". -/
structure ConfigInteger where
  value : Int
  suffix : Option Suffix
  deriving DecidableEq, Repr

/-- The suffix letter denoted by a character, case-insensitive. -/
def suffixOfChar (c : Char) : Option Suffix :=
  if c = 'k' ∨ c = 'K' then some .kibi
  else if c = 'm' ∨ c = 'M' then some .mebi
  else if c = 'g' ∨ c = 'G' then some .gibi
  else none

/-- Split a leading run of decimal digits from the rest. -/
def splitDigits : List Char → List Char × List Char
  | [] => ([], [])
  | c :: rest =>
    if c.isDigit then
      let (d, r) := splitDigits rest
      (c :: d, r)
    else
      ([], c :: rest)

/-- Numeric value of a digit run. -/
def digitsToNat (ds : List Char) : Nat :=
  ds.foldl (fun acc c => acc * 10 + (c.toNat - '0'.toNat)) 0

/-- Modelled from the spec (Integer coercion): "optional sign, decimal digits,
optional single-letter size suffix (`k`/`m`/`g`, case-insensitive) denoting a
power-of-1024 scale factor"; the suffix is never multiplied into the value. -/
def decodeInteger (v : Option (List Char)) : Except DecodeError ConfigInteger :=
  match v with
  | none => .error .missingValue
  | some s => do
    let c ← normalizeValue (joinCont s)
    let body := c.content
    let (sign, digitsPart) :=
      match body with
      | '+' :: rest => ((1 : Int), rest)
      | '-' :: rest => ((-1 : Int), rest)
      | _ => ((1 : Int), body)
    let (ds, rest) := splitDigits digitsPart
    if ds = [] then .error .badInteger
    else
      match rest with
      | [] => .ok ⟨sign * digitsToNat ds, none⟩
      | [c] =>
        match suffixOfChar c with
        | some suf => .ok ⟨sign * digitsToNat ds, some suf⟩
        | none => .error .badInteger
      | _ => .error .badInteger

/-- Modelled from the spec: the recognized color-name tokens (basic palette
and bright variants). -/
inductive ColorName where
  | normal
  | black
  | red
  | green
  | yellow
  | blue
  | magenta
  | cyan
  | white
  | brightBlack
  | brightRed
  | brightGreen
  | brightYellow
  | brightBlue
  | brightMagenta
  | brightCyan
  | brightWhite
  deriving DecidableEq, Repr

/-- Modelled from the spec: the recognized attribute keywords. -/
inductive ColorAttribute where
  | bold
  | dim
  | ul
  | blink
  | reverse
  | italic
  | strike
  deriving DecidableEq, Repr

/-- Modelled from the spec: the Color coercion result — "up to two color-name
tokens (foreground then background) followed by zero or more attribute
keywords". -/
structure Color where
  foreground : Option ColorName
  background : Option ColorName
  attributes : List ColorAttribute
  deriving DecidableEq, Repr

/-- The color name denoted by a token, if any. -/
def colorNameOfToken (t : List Char) : Option ColorName :=
  if t = "normal".data then some .normal
  else if t = "black".data then some .black
  else if t = "red".data then some .red
  else if t = "green".data then some .green
  else if t = "yellow".data then some .yellow
  else if t = "blue".data then some .blue
  else if t = "magenta".data then some .magenta
  else if t = "cyan".data then some .cyan
  else if t = "white".data then some .white
  else if t = "brightblack".data then some .brightBlack
  else if t = "brightred".data then some .brightRed
  else if t = "brightgreen".data then some .brightGreen
  else if t = "brightyellow".data then some .brightYellow
  else if t = "brightblue".data then some .brightBlue
  else if t = "brightmagenta".data then some .brightMagenta
  else if t = "brightcyan".data then some .brightCyan
  else if t = "brightwhite".data then some .brightWhite
  else none

/-- The attribute denoted by a token, if any. -/
def attributeOfToken (t : List Char) : Option ColorAttribute :=
  if t = "bold".data then some .bold
  else if t = "dim".data then some .dim
  else if t = "ul".data then some .ul
  else if t = "blink".data then some .blink
  else if t = "reverse".data then some .reverse
  else if t = "italic".data then some .italic
  else if t = "strike".data then some .strike
  else none

/-- Whitespace, for tokenizing color values. -/
def isWs (c : Char) : Bool :=
  c = ' ' ∨ c = '\t' ∨ c = '\n' ∨ c = '\r'

/-- Split on runs of whitespace, dropping empty tokens. -/
def splitWsAux : List Char → List Char → List (List Char)
  | [], acc => if acc = [] then [] else [acc.reverse]
  | c :: rest, acc =>
    if isWs c then
      if acc = [] then splitWsAux rest []
      else acc.reverse :: splitWsAux rest []
    else
      splitWsAux rest (c :: acc)

/-- Tokenize a logical color value on whitespace. -/
def splitWs (s : List Char) : List (List Char) :=
  splitWsAux s []

/-- Modelled from the spec: the token grammar of the Color coercion — "up to
two color-name tokens (foreground then background) followed by zero or more
attribute keywords in any order; unrecognized tokens are decode errors".
`colorCount` counts the color-name tokens already consumed; once an attribute
keyword has appeared, further color names are no longer accepted as colors. -/
def processColorTokens : List (List Char) → Nat → Color → Except DecodeError Color
  | [], _, acc => .ok acc
  | t :: rest, colorCount, acc =>
    match colorNameOfToken t with
    | some cn =>
      if colorCount = 0 then
        processColorTokens rest 1 { acc with foreground := some cn }
      else if colorCount = 1 then
        processColorTokens rest 2 { acc with background := some cn }
      else
        .error .badColor
    | none =>
      match attributeOfToken t with
      | some a =>
        processColorTokens rest 2 { acc with attributes := acc.attributes ++ [a] }
      | none => .error .badColor

/-- Modelled from the spec (Color coercion): the trailing-backslash
continuation is joined into one logical value before tokenizing, then the
token grammar runs. -/
def decodeColor (v : Option (List Char)) : Except DecodeError Color :=
  match v with
  | none => .error .missingValue
  | some s => do
    let c ← normalizeValue (joinCont s)
    processColorTokens (splitWs c.content) 0 ⟨none, none, []⟩

/-- Modelled from the spec: the String coercion result, quotes stripped and
escapes resolved, carried as a `Cow`. -/
structure ConfigString where
  value : Cow
  deriving DecidableEq, Repr

/-- Modelled from the spec (String coercion): unquote/unescape via
`normalizeValue`; "failure occurs only on malformed escape sequences". -/
def decodeString (v : Option (List Char)) : Except DecodeError ConfigString :=
  match v with
  | none => .ok ⟨.owned []⟩
  | some s => do
    let c ← normalizeValue (joinCont s)
    .ok ⟨c⟩

/-- Modelled from the spec: the Path coercion result — "the raw string is
returned verbatim — no home-directory interpolation occurs during lookup or
decode". -/
structure ConfigPath where
  value : Cow
  deriving DecidableEq, Repr

/-- Modelled from the spec (Path coercion): lookup/decode never interpolates;
the value is only unquoted like any string. -/
def decodePath (v : Option (List Char)) : Except DecodeError ConfigPath :=
  match v with
  | none => .error .missingValue
  | some s => do
    let c ← normalizeValue (joinCont s)
    .ok ⟨c⟩

/-- Modelled from the spec: the "separate, explicit interpolation operation"
on a decoded path. It takes a caller-supplied home/base directory and
"resolves a leading `~` ... prefix into a concrete path"; with no leading
`~/` the path is returned unchanged; with a leading `~/` but no supplied
directory, interpolation cannot resolve it. It is never invoked by lookup or
decode. -/
def ConfigPath.interpolate (p : ConfigPath) (homeDir : Option (List Char)) :
    Option (List Char) :=
  match p.value.content with
  | '~' :: '/' :: rest => homeDir.map (fun h => h ++ '/' :: rest)
  | other => some other

/-- Modelled from the spec: the single-value typed lookup — the Lookup Engine
selects the raw value, the Value Coercion Layer converts it. `none` is the
NotFound absence signal; a present entry decodes to `Except` success or a
decode error local to this one query. -/
def tryValue (dec : Option (List Char) → Except DecodeError α) (doc : Document)
    (name : String) (sub : Option String) (key : String) :
    Option (Except DecodeError α) :=
  (lookupRaw doc name sub key).map (fun v => dec (v.map String.data))

/-- Modelled from the spec: the multi-value typed lookup, decoding every
matching raw value in declaration order. -/
def multiValue (dec : Option (List Char) → Except DecodeError α) (doc : Document)
    (name : String) (sub : Option String) (key : String) :
    Option (Except DecodeError (List α)) :=
  match multiValueRaw doc name sub key with
  | [] => none
  | vs => some (vs.mapM (fun v => dec (v.map String.data)))

/-- Modelled from the spec: the `boolean(...)` convenience lookup, collapsing
the decoded Boolean to `Bool`. -/
def booleanLookup (doc : Document) (name : String) (sub : Option String)
    (key : String) : Option (Except DecodeError Bool) :=
  (tryValue decodeBoolean doc name sub key).map (fun r => r.map Boolean.toBool)

/-- Modelled from the spec: the raw-path convenience lookup, returning the
unquoted but never interpolated value. -/
def pathLookup (doc : Document) (name : String) (sub : Option String)
    (key : String) : Option (Except DecodeError ConfigPath) :=
  tryValue decodePath doc name sub key

/-- The document `[core]\nbool-explicit=false\nbool-implicit=false\n[core]\nbool-implicit\n`
of the duplicate-section fallthrough test
(`get_value_looks_up_all_sections_before_failing`). -/
def docDup : Document :=
  [⟨"core", none, [⟨"bool-explicit", some "false"⟩, ⟨"bool-implicit", some "false"⟩]⟩,
   ⟨"core", none, [⟨"bool-implicit", none⟩]⟩]

/-- The document of the `get_value_for_all_provided_values` test: a first
`[core]` section holding `other-quoted = "hello"`, then a second `[core]`
section holding the remaining entries, among them the line-continued color
value and the quoted strings and paths. -/
def docAll : Document :=
  [⟨"core", none, [⟨"other-quoted", some "\"hello\""⟩]⟩,
   ⟨"core", none,
    [⟨"bool-explicit", some "false"⟩,
     ⟨"bool-implicit", none⟩,
     ⟨"integer-no-prefix", some "10"⟩,
     ⟨"integer-prefix", some "10g"⟩,
     ⟨"color", some "brightgreen red \\\n            bold"⟩,
     ⟨"other", some "hello world"⟩,
     ⟨"other-quoted", some "\"hello world\""⟩,
     ⟨"location", some "~/tmp"⟩,
     ⟨"location-quoted", some "\"~/quoted\""⟩]⟩]

/-- The document `[core]\na = true\nA = false` of the
`value_names_are_case_insensitive` test. -/
def docCase : Document :=
  [⟨"core", none, [⟨"a", some "true"⟩, ⟨"A", some "false"⟩]⟩]

/-- The document `[core]\na=b\nc` of the `single_section` test. -/
def docSingle : Document :=
  [⟨"core", none, [⟨"a", some "b"⟩, ⟨"c", none⟩]⟩]

/-- The document of the `sections_by_name` test, with a `[remote "origin"]`
section carrying an exact-case subsection label. -/
def docRemote : Document :=
  [⟨"core", none,
    [⟨"repositoryformatversion", some "0"⟩, ⟨"filemode", some "true"⟩,
     ⟨"bare", some "false"⟩, ⟨"logallrefupdates", some "true"⟩]⟩,
   ⟨"remote", some "origin",
    [⟨"url", some "git@github.com:Byron/gitoxide.git"⟩,
     ⟨"fetch", some "+refs/heads/*:refs/remotes/origin/*"⟩]⟩]

end GitConfig

namespace GitPathspec

/-- The bytes of an ASCII string literal, for keyword comparisons. -/
def bytesOf (s : String) : List Nat :=
  s.data.map Char.toNat

/-- `MagicSignature` of `git-pathspec`: the bitflags TOP, EXCLUDE, ICASE. -/
structure MagicSignature where
  top : Bool
  exclude : Bool
  icase : Bool
  deriving DecidableEq, Repr

/-- `MagicSignature::empty()`. -/
def MagicSignature.empty : MagicSignature :=
  ⟨false, false, false⟩

/-- The `|=` union of two signatures. -/
def MagicSignature.union (a b : MagicSignature) : MagicSignature :=
  ⟨a.top || b.top, a.exclude || b.exclude, a.icase || b.icase⟩

/-- `SearchMode` of `git-pathspec`; `shellGlob` is the default. -/
inductive SearchMode where
  | shellGlob
  | literal
  | pathAwareGlob
  deriving DecidableEq, Repr

/-- Attribute states, from the external `git_attributes::State`. -/
inductive AttrState where
  | set
  | unset
  | value (v : List Nat)
  | unspecified
  deriving DecidableEq, Repr

/-- `Pattern` of `git-pathspec/src/lib.rs`, as built by `Pattern::from_bytes`. -/
structure Pattern where
  path : List Nat
  signature : MagicSignature
  searchMode : SearchMode
  attributes : List (List Nat × AttrState)
  deriving DecidableEq, Repr

/-- `parse::Error` of `git-pathspec/src/parse.rs`. -/
inductive Error where
  | emptyString
  | invalidKeyword (foundKeyword : List Nat)
  | unimplemented (foundShortKeyword : List Nat)
  | missingClosingParenthesis (pathspec : List Nat)
  | invalidAttribute (attr : List Nat)
  | emptyAttribute
  | incompatibleSearchModes
  | multipleAttributeSpecifications
  deriving DecidableEq, Repr

/-- The `unimplemented_chars` list of `parse_short_keywords`:
`" # % & ' , - ; < = > @ _ ` ~`. -/
def unimplementedChars : List Nat :=
  [34, 35, 37, 38, 39, 44, 45, 59, 60, 61, 62, 64, 95, 96, 126]

/-- `parse_short_keywords`, cursor-free: consumes leading short-keyword bytes
from the remaining input and returns the accumulated signature with the rest.
`/` (47) adds TOP, `^` (94) and `!` (33) add EXCLUDE, `:` (58) is consumed and
stops, an unimplemented character is an error, and any other byte stops
without being consumed. -/
def parseShortKeywords : List Nat → Except Error (MagicSignature × List Nat)
  | [] => .ok (.empty, [])
  | b :: rest =>
    if b = 47 then
      (parseShortKeywords rest).map (fun p => (p.1.union ⟨true, false, false⟩, p.2))
    else if b = 94 ∨ b = 33 then
      (parseShortKeywords rest).map (fun p => (p.1.union ⟨false, true, false⟩, p.2))
    else if b = 58 then
      .ok (.empty, rest)
    else if b ∈ unimplementedChars then
      .error (.unimplemented [b])
    else
      .ok (.empty, b :: rest)

/-- Split the input at the first `)` (41), dropping it: `input.find(")")` of
`parse_long_keywords`. The bytes consumed before `parse_long_keywords` runs
are `:`, short keywords and `(`, never `)`, so searching the remainder finds
the same parenthesis the code finds in the full input. -/
def splitAtRParen : List Nat → Option (List Nat × List Nat)
  | [] => none
  | 41 :: rest => some ([], rest)
  | b :: rest => (splitAtRParen rest).map (fun p => (b :: p.1, p.2))

/-- The keyword-splitting loop of `parse_long_keywords`: examines the byte
pair at offsets `k`, `k+1` of the current segment; a `,` (44) at `k+1` not
preceded by `\` (92) at `k` ends a keyword (the comma is dropped and the scan
resumes at the byte after it, so a comma immediately following a separator is
not itself a separator); when no byte exists at `k+1` the remaining segment is
the last keyword. -/
def splitKwGo (seg : List Nat) (k : Nat) : List (List Nat) :=
  match h : seg.get? (k + 1) with
  | none => [seg]
  | some b =>
    if b = 44 ∧ seg.getD k 0 ≠ 92 then
      seg.take (k + 1) :: splitKwGo (seg.drop (k + 2)) 0
    else
      splitKwGo seg (k + 1)
termination_by seg.length - k
decreasing_by
  · have hk : k + 1 < seg.length := List.get?_eq_some.mp h |>.1
    simp only [List.length_drop]
    omega
  · have hk : k + 1 < seg.length := List.get?_eq_some.mp h |>.1
    omega

/-- Validity of an attribute name per the external `git_attributes` parser:
ASCII only and not starting with `-` (the conditions named by
`Error::InvalidAttribute` in `parse.rs`). -/
def attrNameOk (name : List Nat) : Bool :=
  name ≠ [] && name.all (fun b => b < 128) && name.head? ≠ some 45

/-- Split an attribute token at the first `=` (61) into name and value. -/
def splitAtEqSign : List Nat → Option (List Nat × List Nat)
  | [] => none
  | 61 :: rest => some ([], rest)
  | b :: rest => (splitAtEqSign rest).map (fun p => (b :: p.1, p.2))

/-- One attribute token of the external `git_attributes::parse::Iter`
collaborator (its source is outside this repository): `!name` is unspecified,
`-name` is unset, `name=value` carries a value, a bare `name` is set; an
invalid name is `Error::InvalidAttribute`. Unreachable from the theorems
below, which never enter the `attr:` keyword. -/
def parseOneAttr (t : List Nat) : Except Error (List Nat × AttrState) :=
  match t with
  | 33 :: name =>
    if attrNameOk name then .ok (name, .unspecified) else .error (.invalidAttribute t)
  | 45 :: name =>
    if attrNameOk name then .ok (name, .unset) else .error (.invalidAttribute t)
  | _ =>
    match splitAtEqSign t with
    | some (name, v) =>
      if attrNameOk name then .ok (name, .value v) else .error (.invalidAttribute t)
    | none =>
      if attrNameOk t then .ok (t, .set) else .error (.invalidAttribute t)

/-- Whitespace tokenizer for attribute lists (external collaborator model). -/
def splitWsBytesAux : List Nat → List Nat → List (List Nat)
  | [], acc => if acc = [] then [] else [acc.reverse]
  | b :: rest, acc =>
    if b = 32 ∨ b = 9 then
      if acc = [] then splitWsBytesAux rest []
      else acc.reverse :: splitWsBytesAux rest []
    else
      splitWsBytesAux rest (b :: acc)

/-- Parse each attribute token in order, stopping at the first error. -/
def parseAttrList : List (List Nat) → Except Error (List (List Nat × AttrState))
  | [] => .ok []
  | t :: ts =>
    match parseOneAttr t with
    | .error e => .error e
    | .ok a =>
      match parseAttrList ts with
      | .error e => .error e
      | .ok rest => .ok (a :: rest)

/-- `parse_attributes` of `parse.rs`: an empty specification is
`Error::EmptyAttribute`; otherwise the tokens are parsed by the external
`git_attributes` iterator, modelled by `parseOneAttr`. -/
def parseAttributes (input : List Nat) : Except Error (List (List Nat × AttrState)) :=
  if input = [] then .error .emptyAttribute
  else parseAttrList (splitWsBytesAux input [])

/-- The `Pattern` default of `parse_long_keywords`: empty path, empty
signature, `SearchMode::ShellGlob`, no attributes. -/
def defaultPattern : Pattern :=
  ⟨[], .empty, .shellGlob, []⟩

/-- The per-keyword step of the `for keyword in keywords` loop of
`parse_long_keywords`. -/
def applyKeyword (p : Pattern) (kw : List Nat) : Except Error Pattern :=
  if kw = bytesOf "top" then
    .ok { p with signature := p.signature.union ⟨true, false, false⟩ }
  else if kw = bytesOf "icase" then
    .ok { p with signature := p.signature.union ⟨false, false, true⟩ }
  else if kw = bytesOf "exclude" then
    .ok { p with signature := p.signature.union ⟨false, true, false⟩ }
  else if kw = bytesOf "attr" then
    .ok p
  else if kw = bytesOf "literal" then
    match p.searchMode with
    | .pathAwareGlob => .error .incompatibleSearchModes
    | _ => .ok { p with searchMode := .literal }
  else if kw = bytesOf "glob" then
    match p.searchMode with
    | .literal => .error .incompatibleSearchModes
    | _ => .ok { p with searchMode := .pathAwareGlob }
  else if kw.take 5 = bytesOf "attr:" then
    if p.attributes = [] then
      (parseAttributes (kw.drop 5)).map (fun a => { p with attributes := a })
    else
      .error .multipleAttributeSpecifications
  else if kw.take 7 = bytesOf "prefix:" then
    .ok p
  else
    .error (.invalidKeyword kw)

/-- The `for keyword in keywords` loop of `parse_long_keywords`, applying
each keyword in order and stopping at the first error. -/
def applyKeywords : Pattern → List (List Nat) → Except Error Pattern
  | p, [] => .ok p
  | p, kw :: kws =>
    match applyKeyword p kw with
    | .error e => .error e
    | .ok p2 => applyKeywords p2 kws

/-- `parse_long_keywords`: find the closing `)` (an error names the whole
original pathspec when it is missing), return the default pattern when the
parenthesized list is empty, otherwise split it into keywords and fold the
keyword loop; the returned remainder is the input after the `)`. -/
def parseLongKeywords (original : List Nat) (input : List Nat) :
    Except Error (Pattern × List Nat) :=
  match splitAtRParen input with
  | none => .error (.missingClosingParenthesis original)
  | some (kws, after) =>
    if kws = [] then .ok (defaultPattern, after)
    else
      match applyKeywords defaultPattern (splitKwGo kws 0) with
      | .error e => .error e
      | .ok p => .ok (p, after)

/-- The tail of `Pattern::from_bytes` after short-keyword parsing: when a `(`
(40) follows, parse the parenthesized long-keyword list and combine it with
the short signature; otherwise the remaining bytes are the path and the
defaults stand. -/
def fromBytesAfterShort (input : List Nat) (sig : MagicSignature)
    (rest2 : List Nat) : Except Error Pattern :=
  match rest2 with
  | 40 :: rest3 =>
    match parseLongKeywords input rest3 with
    | .error e => .error e
    | .ok (pat, rest4) =>
      .ok { path := rest4, signature := sig.union pat.signature,
            searchMode := pat.searchMode, attributes := pat.attributes }
  | _ =>
    .ok { path := rest2, signature := sig,
          searchMode := .shellGlob, attributes := [] }

/-- `Pattern::from_bytes` of `git-pathspec/src/parse.rs`: empty input is
`Error::EmptyString`; a leading `:` (58) starts the magic signature — short
keywords, then a parenthesized long-keyword list when a `(` (40) follows —
and the path is everything after the consumed prefix; without a leading `:`
the whole input is the path and the defaults stand. -/
def fromBytes (input : List Nat) : Except Error Pattern :=
  match input with
  | [] => .error .emptyString
  | b :: rest =>
    if b = 58 then
      match parseShortKeywords rest with
      | .error e => .error e
      | .ok (sig, rest2) => fromBytesAfterShort input sig rest2
    else
      .ok { path := b :: rest, signature := .empty,
            searchMode := .shellGlob, attributes := [] }

end GitPathspec

namespace GitConfig

/-- Appending a matching Section that has the key makes single-value lookup
return that Section's value: the most recently declared matching Section is
scanned first. -/
theorem lookupRaw_append_found (doc : Document) (sec : Section)
    (name key : String) (sub : Option String)
    (hm : sectionMatches sec name sub = true) (v : Option String)
    (hv : sec.findKey key = some v) :
    lookupRaw (doc ++ [sec]) name sub key = some v := by
  unfold lookupRaw
  rw [List.filter_append, List.reverse_append]
  simp only [List.filter_cons, hm, if_true, List.filter_nil, List.reverse_cons,
    List.reverse_nil, List.nil_append, List.cons_append, List.findSome?_cons]
  rw [hv]

/-- Appending a matching Section that lacks the key leaves single-value
lookup unchanged: lookup falls through to the next-most-recent matching
Section. -/
theorem lookupRaw_append_fallthrough (doc : Document) (sec : Section)
    (name key : String) (sub : Option String)
    (hm : sectionMatches sec name sub = true)
    (hv : sec.findKey key = none) :
    lookupRaw (doc ++ [sec]) name sub key = lookupRaw doc name sub key := by
  unfold lookupRaw
  rw [List.filter_append, List.reverse_append]
  simp only [List.filter_cons, hm, if_true, List.filter_nil, List.reverse_cons,
    List.reverse_nil, List.nil_append, List.cons_append, List.findSome?_cons]
  rw [hv]

/-- Section matching only depends on the ASCII case fold of the queried
section name. -/
theorem sectionMatches_fold_congr (sec : Section) (n1 n2 : String)
    (sub : Option String) (h : foldName n1 = foldName n2) :
    sectionMatches sec n1 sub = sectionMatches sec n2 sub := by
  unfold sectionMatches foldEq
  rw [h]

/-- Single-value lookup only depends on the ASCII case fold of the queried
section name. -/
theorem lookupRaw_fold_congr (doc : Document) (n1 n2 : String)
    (sub : Option String) (key : String) (h : foldName n1 = foldName n2) :
    lookupRaw doc n1 sub key = lookupRaw doc n2 sub key := by
  unfold lookupRaw
  rw [List.filter_congr (fun s _ => sectionMatches_fold_congr s n1 n2 sub h)]

/-- Multi-value lookup only depends on the ASCII case fold of the queried
section name. -/
theorem multiValueRaw_fold_congr (doc : Document) (n1 n2 : String)
    (sub : Option String) (key : String) (h : foldName n1 = foldName n2) :
    multiValueRaw doc n1 sub key = multiValueRaw doc n2 sub key := by
  unfold multiValueRaw
  rw [List.filter_congr (fun s _ => sectionMatches_fold_congr s n1 n2 sub h)]

/-- Multi-value lookup distributes over document concatenation: values of
earlier sections come first, in declaration order. -/
theorem multiValueRaw_append (d1 d2 : Document) (name : String)
    (sub : Option String) (key : String) :
    multiValueRaw (d1 ++ d2) name sub key
      = multiValueRaw d1 name sub key ++ multiValueRaw d2 name sub key := by
  unfold multiValueRaw
  rw [List.filter_append, List.flatMap_append]

/-- When no matching Section holds a matching Entry, single-value lookup is
the NotFound absence signal. -/
theorem lookupRaw_eq_none_of_no_match (doc : Document) (n : String)
    (sub : Option String) (k : String)
    (h : ∀ sec ∈ doc, sectionMatches sec n sub = true →
      ∀ e ∈ sec.entries, entryMatches e k = false) :
    lookupRaw doc n sub k = none := by
  unfold lookupRaw
  rw [List.findSome?_eq_none_iff]
  intro sec hsec
  rw [List.mem_reverse, List.mem_filter] at hsec
  obtain ⟨hmem, hmatch⟩ := hsec
  unfold Section.findKey
  rw [Option.map_eq_none', List.find?_eq_none]
  intro e he
  rw [List.mem_reverse] at he
  simp [h sec hmem hmatch e he]

/-- An ordinary character (neither quote nor backslash) passes through
`unescape` untouched. -/
theorem unescape_cons_ordinary (c : Char) (l : List Char) (hq : ¬c = '"')
    (hb : ¬c = '\\') :
    unescape (c :: l) = (unescape l).map (fun r => c :: r) := by
  rw [unescape.eq_def]
  simp only [if_neg hb, if_neg hq]

/-- A quote character is dropped by `unescape`. -/
theorem unescape_cons_quote (l : List Char) :
    unescape ('"' :: l) = unescape l := by
  rw [unescape.eq_def]
  simp

/-- Splitting `isPlain` on a cons cell. -/
theorem isPlain_cons (c : Char) (cs : List Char) (h : isPlain (c :: cs) = true) :
    ¬c = '"' ∧ ¬c = '\\' ∧ isPlain cs = true := by
  unfold isPlain at h ⊢
  simp only [List.contains_cons, Bool.and_eq_true, Bool.not_eq_true',
    Bool.or_eq_false_iff, beq_eq_false_iff_ne, ne_eq] at h ⊢
  exact ⟨fun hq => h.1.1 hq.symm, fun hb => h.2.1 hb.symm, h.1.2, h.2.2⟩

/-- Characters free of quotes and backslashes pass through `unescape`
untouched. -/
theorem unescape_append_plain (s : List Char) (h : isPlain s = true)
    (t : List Char) :
    unescape (s ++ t) = (unescape t).map (fun r => s ++ r) := by
  induction s with
  | nil =>
    cases ht : unescape t <;> simp [ht]
  | cons c cs ih =>
    obtain ⟨hq, hb, hcs⟩ := isPlain_cons c cs h
    rw [List.cons_append, unescape_cons_ordinary c (cs ++ t) hq hb, ih hcs]
    cases ht : unescape t <;> simp [ht]

/-- `unescape` of a transformation-free value is the value itself. -/
theorem unescape_plain (s : List Char) (h : isPlain s = true) :
    unescape s = some s := by
  have h2 := unescape_append_plain s h []
  simp only [List.append_nil] at h2
  rw [h2]
  simp [unescape]

/-- The content invariant of value extraction: whichever representation
`normalizeValue` chooses, the carried content is exactly the canonical
transformed content `unescape s`, and a borrowed result is always a
contiguous subrange of the raw text — the whole text, or the text minus its
surrounding quotes. -/
theorem normalizeValue_content (s : List Char) (c : Cow)
    (h : normalizeValue s = .ok c) :
    unescape s = some c.content ∧
    (c.isBorrowed = true → c.content = s ∨ s = '"' :: (c.content ++ ['"'])) := by
  unfold normalizeValue at h
  split_ifs at h with hp
  · injection h with h2
    subst h2
    exact ⟨unescape_plain s hp, fun _ => Or.inl rfl⟩
  · split at h
    next rest =>
      split_ifs at h with hcond
      · injection h with h2
        subst h2
        obtain ⟨hlast, hplain⟩ := hcond
        have hne : rest ≠ [] := by
          intro he
          rw [he] at hlast
          simp at hlast
        have hdecomp : rest.dropLast ++ [rest.getLast hne] = rest :=
          List.dropLast_append_getLast hne
        have hquote : rest.getLast hne = '"' := by
          rw [List.getLast?_eq_getLast rest hne] at hlast
          injection hlast
        rw [hquote] at hdecomp
        constructor
        · rw [unescape_cons_quote, ← hdecomp,
            unescape_append_plain rest.dropLast hplain ['"'],
            unescape_cons_quote]
          simp [unescape, Cow.content]
        · intro _
          right
          show ('"' : Char) :: rest = '"' :: (rest.dropLast ++ ['"'])
          rw [hdecomp]
      · split at h
        next r heq =>
          injection h with h2
          subst h2
          exact ⟨heq, by simp [Cow.isBorrowed]⟩
        next => cases h
    next =>
      split at h
      next r heq =>
        injection h with h2
        subst h2
        exact ⟨heq, by simp [Cow.isBorrowed]⟩
      next => cases h

/-- A NotFound raw lookup makes every typed lookup absent as well — it can
never surface as a decode error. -/
theorem tryValue_eq_none_of_notFound {α : Type}
    (dec : Option (List Char) → Except DecodeError α) (doc : Document)
    (n : String) (sub : Option String) (k : String)
    (h : lookupRaw doc n sub k = none) :
    tryValue dec doc n sub k = none := by
  unfold tryValue
  rw [h]
  rfl

end GitConfig

namespace GitPathspec

/-- Short-keyword parsing can fail only with `Unimplemented`, never with
`EmptyString`. -/
theorem parseShortKeywords_ne_emptyString (l : List Nat) :
    parseShortKeywords l ≠ .error .emptyString := by
  induction l with
  | nil => simp [parseShortKeywords]
  | cons b rest ih =>
    simp only [parseShortKeywords]
    split_ifs with h1 h2 h3 h4
    · cases hr : parseShortKeywords rest with
      | error e =>
        rw [hr] at ih
        simpa [Except.map] using ih
      | ok p => simp [Except.map]
    · cases hr : parseShortKeywords rest with
      | error e =>
        rw [hr] at ih
        simpa [Except.map] using ih
      | ok p => simp [Except.map]
    · simp
    · simp
    · simp

/-- One attribute token can fail only with `InvalidAttribute`. -/
theorem parseOneAttr_ne_emptyString (t : List Nat) :
    parseOneAttr t ≠ .error .emptyString := by
  unfold parseOneAttr
  split
  · split_ifs <;> simp
  · split_ifs <;> simp
  · split
    · split_ifs <;> simp
    · split_ifs <;> simp

/-- An attribute token list can fail only with `InvalidAttribute`. -/
theorem parseAttrList_ne_emptyString (ts : List (List Nat)) :
    parseAttrList ts ≠ .error .emptyString := by
  induction ts with
  | nil => simp [parseAttrList]
  | cons t ts ih =>
    simp only [parseAttrList]
    cases h1 : parseOneAttr t with
    | error e =>
      have h2 := parseOneAttr_ne_emptyString t
      rw [h1] at h2
      simpa using h2
    | ok a =>
      cases h2 : parseAttrList ts with
      | error e =>
        rw [h2] at ih
        simpa using ih
      | ok r => simp

/-- `parse_attributes` can fail only with `EmptyAttribute` or
`InvalidAttribute`. -/
theorem parseAttributes_ne_emptyString (input : List Nat) :
    parseAttributes input ≠ .error .emptyString := by
  unfold parseAttributes
  split_ifs
  · simp
  · exact parseAttrList_ne_emptyString _

/-- A long-keyword step never fails with `EmptyString`. -/
theorem applyKeyword_ne_emptyString (p : Pattern) (kw : List Nat) :
    applyKeyword p kw ≠ .error .emptyString := by
  unfold applyKeyword
  split_ifs with h1 h2 h3 h4 h5 h6 h7 h8 h9
  · simp
  · simp
  · simp
  · simp
  · split <;> simp
  · split <;> simp
  · cases ha : parseAttributes (kw.drop 5) with
    | error e =>
      have h10 := parseAttributes_ne_emptyString (kw.drop 5)
      rw [ha] at h10
      simpa [Except.map] using h10
    | ok a => simp [Except.map]
  · simp
  · simp
  · simp

/-- The keyword loop never fails with `EmptyString`. -/
theorem applyKeywords_ne_emptyString (kws : List (List Nat)) :
    ∀ p : Pattern, applyKeywords p kws ≠ .error .emptyString := by
  induction kws with
  | nil =>
    intro p
    simp [applyKeywords]
  | cons kw kws ih =>
    intro p
    simp only [applyKeywords]
    cases h : applyKeyword p kw with
    | error e =>
      have h2 := applyKeyword_ne_emptyString p kw
      rw [h] at h2
      simpa using h2
    | ok p2 => exact ih p2

/-- `parse_long_keywords` never fails with `EmptyString`. -/
theorem parseLongKeywords_ne_emptyString (original input : List Nat) :
    parseLongKeywords original input ≠ .error .emptyString := by
  unfold parseLongKeywords
  split
  · simp
  next kws after heq =>
    split_ifs with hkws
    · simp
    · cases h : applyKeywords defaultPattern (splitKwGo kws 0) with
      | error e =>
        have h2 := applyKeywords_ne_emptyString (splitKwGo kws 0) defaultPattern
        rw [h] at h2
        simpa using h2
      | ok q => simp

end GitPathspec


namespace GitPathspec

/-- The tail of `from_bytes` never fails with `EmptyString`. -/
theorem fromBytesAfterShort_ne_emptyString (input : List Nat)
    (sig : MagicSignature) (rest2 : List Nat) :
    fromBytesAfterShort input sig rest2 ≠ .error .emptyString := by
  unfold fromBytesAfterShort
  split
  next rest3 =>
    split
    next e heq =>
      intro hc
      injection hc with hc2
      subst hc2
      exact parseLongKeywords_ne_emptyString input rest3 heq
    next pat rest4 heq => simp
  next => simp

/-- C10: `Pattern::from_bytes` fails with the `EmptyString` error exactly when
the input is empty, and for every non-empty input whose first byte is not `:`
it succeeds, returning a Pattern whose path equals the entire input
byte-for-byte, with an empty magic signature, the default ShellGlob search
mode, and no attributes. -/
theorem pathspec_emptyString_iff_and_default :
    (∀ input : List Nat, fromBytes input = .error .emptyString ↔ input = []) ∧
    (∀ (b : Nat) (rest : List Nat), b ≠ 58 →
      fromBytes (b :: rest) = .ok ⟨b :: rest, .empty, .shellGlob, []⟩) := by
  constructor
  · intro input
    constructor
    · intro h
      cases input with
      | nil => rfl
      | cons b rest =>
        exfalso
        simp only [fromBytes] at h
        split_ifs at h with hb
        · revert h
          cases hs : parseShortKeywords rest with
          | error e =>
            intro h
            have h2 : (Except.error e : Except Error Pattern)
                = .error .emptyString := h
            injection h2 with h3
            subst h3
            exact parseShortKeywords_ne_emptyString rest hs
          | ok p =>
            obtain ⟨sig, rest2⟩ := p
            intro h
            exact fromBytesAfterShort_ne_emptyString (b :: rest) sig rest2 h
    · intro h
      subst h
      rfl
  · intro b rest hb
    simp only [fromBytes]
    rw [if_neg hb]

/-- Witness for C10 at concrete inputs: the empty pathspec errors and the
one-byte pathspec `a` parses to itself with defaults. -/
theorem pathspec_emptyString_iff_and_default_witness :
    fromBytes [] = .error .emptyString ∧
    fromBytes [97] = .ok ⟨[97], .empty, .shellGlob, []⟩ :=
  ⟨(pathspec_emptyString_iff_and_default.1 []).mpr rfl,
   pathspec_emptyString_iff_and_default.2 97 [] (by decide)⟩

end GitPathspec

namespace GitConfig

/-- C1: single-value lookup scans matching sections most-recently-declared
first and, when the most recent matching section lacks the key, falls through
to the next-most-recent matching section instead of returning NotFound; on
the document `[core]\nbool-explicit=false\nbool-implicit=false\n[core]\nbool-implicit\n`,
`bool-implicit` resolves in the later section to implicit-true and
`bool-explicit` falls through to the earlier section's `false`. -/
theorem duplicate_section_fallthrough_lookup :
    (∀ (doc : Document) (sec : Section) (name key : String)
      (sub : Option String) (v : Option String),
      sectionMatches sec name sub = true → sec.findKey key = some v →
      lookupRaw (doc ++ [sec]) name sub key = some v) ∧
    (∀ (doc : Document) (sec : Section) (name key : String)
      (sub : Option String),
      sectionMatches sec name sub = true → sec.findKey key = none →
      lookupRaw (doc ++ [sec]) name sub key = lookupRaw doc name sub key) ∧
    tryValue decodeBoolean docDup "core" none "bool-implicit"
      = some (.ok (.isTrue .implicit)) ∧
    tryValue decodeBoolean docDup "core" none "bool-explicit"
      = some (.ok (.isFalse (.borrowed "false".data))) := by
  refine ⟨?_, ?_, rfl, rfl⟩
  · intro doc sec name key sub v hm hv
    exact lookupRaw_append_found doc sec name key sub hm v hv
  · intro doc sec name key sub hm hv
    exact lookupRaw_append_fallthrough doc sec name key sub hm hv

/-- Witness for C1 on the two sections of `docDup`: appending the later
`[core]` section overrides `bool-implicit` but falls through for
`bool-explicit`. -/
theorem duplicate_section_fallthrough_lookup_witness :
    lookupRaw (docDup.take 1 ++ [⟨"core", none, [⟨"bool-implicit", none⟩]⟩])
      "core" none "bool-implicit" = some none ∧
    lookupRaw (docDup.take 1 ++ [⟨"core", none, [⟨"bool-implicit", none⟩]⟩])
      "core" none "bool-explicit"
      = lookupRaw (docDup.take 1) "core" none "bool-explicit" := by
  constructor
  · exact duplicate_section_fallthrough_lookup.1 (docDup.take 1)
      ⟨"core", none, [⟨"bool-implicit", none⟩]⟩ "core" "bool-implicit" none
      none rfl rfl
  · exact duplicate_section_fallthrough_lookup.2.1 (docDup.take 1)
      ⟨"core", none, [⟨"bool-implicit", none⟩]⟩ "core" "bool-explicit" none
      rfl rfl

/-- C2: section and key names match ASCII-case-insensitively while subsection
labels match byte-exactly: lookup under `core` and `CORE` agree on every
document, the keys `a` and `A` in one section count as 2 entries under
multi-value lookup and resolve to the same value under either spelling, and
an exact-case subsection query misses while the exact label hits. -/
theorem case_insensitive_names_exact_subsections :
    (∀ (doc : Document) (sub : Option String) (key : String),
      lookupRaw doc "core" sub key = lookupRaw doc "CORE" sub key) ∧
    (∀ (doc : Document) (sub : Option String) (key : String),
      multiValueRaw doc "core" sub key = multiValueRaw doc "CORE" sub key) ∧
    (multiValueRaw docCase "core" none "a").length = 2 ∧
    tryValue decodeBoolean docCase "core" none "a"
      = tryValue decodeBoolean docCase "core" none "A" ∧
    lookupRaw docRemote "remote" (some "origin") "url"
      = some (some "git@github.com:Byron/gitoxide.git") ∧
    lookupRaw docRemote "remote" (some "Origin") "url" = none := by
  refine ⟨?_, ?_, rfl, rfl, rfl, rfl⟩
  · intro doc sub key
    exact lookupRaw_fold_congr doc "core" "CORE" sub key (by decide)
  · intro doc sub key
    exact multiValueRaw_fold_congr doc "core" "CORE" sub key (by decide)

end GitConfig

namespace GitConfig

/-- Counterexample to C3 as stated: the first multi-value result for
`other-quoted` comes from the raw text `"hello"`, whose extraction required
unquoting (the content differs from the raw bytes), yet the result is a
borrowed value — refuting "every value requiring transformation (quote
removal, ...) is materialized as an owned copy". -/
theorem borrow_iff_no_transform_counterexample :
    lookupRaw (docAll.take 1) "core" none "other-quoted"
      = some (some "\"hello\"") ∧
    decodeString (some "\"hello\"".data) = .ok ⟨.borrowed "hello".data⟩ ∧
    (Cow.borrowed "hello".data).isBorrowed = true ∧
    "hello".data ≠ "\"hello\"".data := by
  exact ⟨rfl, rfl, rfl, by decide⟩

/-- A transformation-free raw text is returned borrowed whole (zero copy). -/
theorem normalizeValue_plain_borrowed (s : List Char) (h : isPlain s = true) :
    normalizeValue s = .ok (.borrowed s) := by
  unfold normalizeValue
  rw [if_pos h]

/-- A quote-wrapped transformation-free raw text is returned borrowed with
only the surrounding quotes stripped (still a contiguous subslice). -/
theorem normalizeValue_quoted_plain_borrowed (s : List Char)
    (h : isPlain s = true) :
    normalizeValue ('"' :: (s ++ ['"'])) = .ok (.borrowed s) := by
  have hn : ¬isPlain ('"' :: (s ++ ['"'])) = true := by
    simp [isPlain, List.contains_cons]
  unfold normalizeValue
  rw [if_neg hn]
  simp [List.getLast?_concat, List.dropLast_concat, h]

/-- C3 (amended): a lookup result borrows exactly when its content is a
contiguous subrange of the raw text. Backward: every borrowed result's
content is the whole raw text or the raw text minus its surrounding quotes
(so any value needing escape resolution is materialized as an owned copy).
Forward: a transformation-free text is returned borrowed whole, and a
quote-wrapped transformation-free text is returned borrowed with only the
surrounding quotes stripped. In either representation the content is
byte-identical to the canonical transformed content. -/
theorem cow_content_invariant :
    (∀ (s : List Char) (c : Cow), normalizeValue s = .ok c →
      unescape s = some c.content ∧
      (c.isBorrowed = true → c.content = s ∨ s = '"' :: (c.content ++ ['"']))) ∧
    (∀ s : List Char, isPlain s = true →
      normalizeValue s = .ok (.borrowed s)) ∧
    (∀ s : List Char, isPlain s = true →
      normalizeValue ('"' :: (s ++ ['"'])) = .ok (.borrowed s)) :=
  ⟨normalizeValue_content, normalizeValue_plain_borrowed,
   normalizeValue_quoted_plain_borrowed⟩

/-- Witness for the amended C3: the content invariant at the `"hello"` raw
text of `docAll`, the zero-copy borrow of the plain `hello world`, and the
borrowed quote-stripping of quoted `hello`. -/
theorem cow_content_invariant_witness :
    unescape "\"hello\"".data = some (Cow.borrowed "hello".data).content ∧
    normalizeValue "hello world".data = .ok (.borrowed "hello world".data) ∧
    normalizeValue ('"' :: ("hello".data ++ ['"'])) = .ok (.borrowed "hello".data) :=
  ⟨(cow_content_invariant.1 "\"hello\"".data (.borrowed "hello".data) rfl).1,
   cow_content_invariant.2.1 "hello world".data rfl,
   cow_content_invariant.2.2 "hello".data rfl⟩

/-- C4: boolean decoding distinguishes implicit from explicit truth — a bare
key decodes to implicit true, the text `true` to explicit true, `false` to
false; both truths collapse to `true` under the boolean convenience lookup
yet remain distinguishable by inspecting the variant. -/
theorem boolean_implicit_vs_explicit :
    decodeBoolean none = .ok (.isTrue .implicit) ∧
    decodeBoolean (some "true".data)
      = .ok (.isTrue (.explicit (.borrowed "true".data))) ∧
    decodeBoolean (some "false".data)
      = .ok (.isFalse (.borrowed "false".data)) ∧
    (∀ v : TrueVariant, (Boolean.isTrue v).toBool = true) ∧
    tryValue decodeBoolean docSingle "core" none "c"
      = some (.ok (.isTrue .implicit)) ∧
    booleanLookup docSingle "core" none "c" = some (.ok true) ∧
    Boolean.isTrue .implicit ≠ Boolean.isTrue (.explicit (.borrowed "true".data)) := by
  exact ⟨rfl, rfl, rfl, fun v => rfl, rfl, rfl, by decide⟩

/-- C5: integer decoding accepts an optional sign, decimal digits and an
optional single-letter power-of-1024 suffix, case-insensitive, and never
multiplies the suffix into the value: `10` gives 10 with the empty-suffix
marker, `10g` gives 10 with the Gibi suffix kept alongside. -/
theorem integer_decode_suffix_unmultiplied :
    decodeInteger (some "10".data) = .ok ⟨10, none⟩ ∧
    decodeInteger (some "10g".data) = .ok ⟨10, some .gibi⟩ ∧
    decodeInteger (some "10G".data) = .ok ⟨10, some .gibi⟩ ∧
    decodeInteger (some "-5k".data) = .ok ⟨-5, some .kibi⟩ ∧
    decodeInteger (some "+7m".data) = .ok ⟨7, some .mebi⟩ ∧
    decodeInteger (some "10x".data) = .error .badInteger ∧
    tryValue decodeInteger docAll "core" none "integer-no-prefix"
      = some (.ok ⟨10, none⟩) ∧
    tryValue decodeInteger docAll "core" none "integer-prefix"
      = some (.ok ⟨10, some .gibi⟩) := by
  exact ⟨rfl, rfl, rfl, rfl, rfl, rfl, rfl, rfl⟩

/-- C6: path lookup never interpolates — `location = ~/tmp` returns the
literal `~/tmp` borrowed from the buffer; only the separate, explicitly
invoked interpolation, given a base directory, resolves the leading `~`
into `B/tmp`, and with no supplied directory it cannot resolve it. -/
theorem path_never_auto_interpolated :
    pathLookup docAll "core" none "location"
      = some (.ok ⟨.borrowed "~/tmp".data⟩) ∧
    (∀ base : List Char,
      ConfigPath.interpolate ⟨.borrowed "~/tmp".data⟩ (some base)
        = some (base ++ "/tmp".data)) ∧
    ConfigPath.interpolate ⟨.borrowed "~/tmp".data⟩ none = none ∧
    pathLookup docAll "core" none "location-quoted"
      = some (.ok ⟨.borrowed "~/quoted".data⟩) := by
  exact ⟨rfl, fun base => rfl, rfl, rfl⟩

/-- C7: multi-value lookup returns every matching value across all matching
sections in declaration order, earliest first — lookup over concatenated
documents concatenates the results, and on `docAll` the two `other-quoted`
declarations come back as `["hello", "hello world"]`. -/
theorem multi_value_declaration_order :
    (∀ (d1 d2 : Document) (name : String) (sub : Option String) (key : String),
      multiValueRaw (d1 ++ d2) name sub key
        = multiValueRaw d1 name sub key ++ multiValueRaw d2 name sub key) ∧
    multiValueRaw docAll "core" none "other-quoted"
      = [some "\"hello\"", some "\"hello world\""] ∧
    multiValue decodeString docAll "core" none "other-quoted"
      = some (.ok [⟨.borrowed "hello".data⟩, ⟨.borrowed "hello world".data⟩]) := by
  exact ⟨multiValueRaw_append, rfl, rfl⟩

/-- C8: a query naming a section or key absent from the document yields the
NotFound absence signal and never a decode error, and the absence leaves
unrelated queries untouched. -/
theorem notFound_is_absence_not_decode_error :
    (∀ {α : Type} (dec : Option (List Char) → Except DecodeError α)
      (doc : Document) (n : String) (sub : Option String) (k : String),
      lookupRaw doc n sub k = none → tryValue dec doc n sub k = none) ∧
    (∀ (doc : Document) (n : String) (sub : Option String) (k : String),
      (∀ sec ∈ doc, sectionMatches sec n sub = true →
        ∀ e ∈ sec.entries, entryMatches e k = false) →
      lookupRaw doc n sub k = none) ∧
    tryValue decodeString docAll "doesnt" none "exist" = none ∧
    tryValue decodeString docAll "core" none "other"
      = some (.ok ⟨.borrowed "hello world".data⟩) := by
  refine ⟨?_, lookupRaw_eq_none_of_no_match, rfl, rfl⟩
  intro α dec doc n sub k h
  exact tryValue_eq_none_of_notFound dec doc n sub k h

/-- Witness for C8: the absent query of the tests is absent for every decoder,
and a concrete no-match hypothesis yields NotFound. -/
theorem notFound_is_absence_not_decode_error_witness :
    tryValue decodeBoolean docAll "doesnt" none "exist" = none ∧
    lookupRaw docSingle "nope" none "a" = none := by
  constructor
  · exact notFound_is_absence_not_decode_error.1 decodeBoolean docAll
      "doesnt" none "exist" rfl
  · exact notFound_is_absence_not_decode_error.2.1 docSingle "nope" none "a"
      (by decide)

/-- C9: color decoding joins the trailing-backslash continuation into one
logical value before tokenizing and accepts up to two color names followed by
attribute keywords: the continued value `brightgreen red \` + `bold` decodes
to foreground BrightGreen, background Red, attributes [Bold]; any
unrecognized token is a decode error. -/
theorem color_continuation_and_tokens :
    tryValue decodeColor docAll "core" none "color"
      = some (.ok ⟨some .brightGreen, some .red, [.bold]⟩) ∧
    splitWs (joinCont "brightgreen red \\\n            bold".data)
      = ["brightgreen".data, "red".data, "bold".data] ∧
    decodeColor (some "vermilion".data) = .error .badColor ∧
    (∀ (t : List Char) (rest : List (List Char)) (n : Nat) (acc : Color),
      colorNameOfToken t = none → attributeOfToken t = none →
      processColorTokens (t :: rest) n acc = .error .badColor) := by
  refine ⟨rfl, rfl, rfl, ?_⟩
  intro t rest n acc h1 h2
  simp only [processColorTokens, h1, h2]

/-- Witness for C9: the unrecognized token `vermilion` errors the token
grammar. -/
theorem color_continuation_and_tokens_witness :
    processColorTokens ["vermilion".data] 0 ⟨none, none, []⟩
      = .error .badColor :=
  color_continuation_and_tokens.2.2.2 "vermilion".data [] 0 ⟨none, none, []⟩
    rfl rfl

end GitConfig
